import Mathlib

/-!
Verification of the dataset-fetching scripts: a shallow embedding of
`drivaerml/download.py` (the fragment-aware fetcher) and of
`airfrans/download.py` (`download_and_extract`), together with theorems
settling the specification's claims about them.

Modelling conventions:
* byte strings are `List Nat`;
* the filesystem is a pair of total maps (files by path, directories by name);
  a path is split into (directory, filename) because every path the scripts
  touch lives in the destination's parent directory;
* the network is an oracle giving, per URL, the outcome of `requests.head`
  (exception, or a status plus an optional parsed content-length header) and
  of `requests.get` (exception, or a status plus a body);
* side effects are also recorded in an event trace (mkdir, HEAD request,
  GET request, file write, file delete, zip extraction) so that claims about
  "number of requests issued" and about effect ordering are statable.
-/

/-- Bytes of a file, as a list of byte values. -/
abbrev Bytes := List Nat

/-- A filesystem path, split as directory part and filename part. -/
structure FPath where
  dir : String
  name : String
deriving DecidableEq

/-- The filesystem state: file contents by path, and which directories exist. -/
structure FS where
  files : FPath → Option Bytes
  dirs : String → Bool

/-- `Path.mkdir(parents=True, exist_ok=True)`: record the directory as existing. -/
def mkdirFS (fs : FS) (d : String) : FS :=
  { fs with dirs := fun x => if x = d then true else fs.dirs x }

/-- `open(p, "wb")` followed by writing `b`: the file at `p` now holds `b`. -/
def writeFile (fs : FS) (p : FPath) (b : Bytes) : FS :=
  { fs with files := fun q => if q = p then some b else fs.files q }

/-- `p.unlink(missing_ok=True)`: the file at `p` is gone (no-op when absent). -/
def deleteFile (fs : FS) (p : FPath) : FS :=
  { fs with files := fun q => if q = p then none else fs.files q }

/-- The empty filesystem. -/
def emptyFS : FS := ⟨fun _ => none, fun _ => false⟩

/-- Outcome of `requests.head(url, allow_redirects=True, timeout=30)`:
either an exception, or a response with a status code and the parsed
`content-length` header (`none` models a missing or unparsable header,
which the script turns into size 0). -/
inductive HeadRes where
  | exn : HeadRes
  | resp (status : Nat) (contentLength : Option Nat) : HeadRes
deriving DecidableEq

/-- Outcome of `requests.get(url, stream=True)`: either an exception, or a
response with a status code and a body (the concatenation of all chunks). -/
inductive GetRes where
  | exn : GetRes
  | resp (status : Nat) (body : Bytes) : GetRes
deriving DecidableEq

/-- The remote side, as an oracle keyed by URL. -/
structure Net where
  head : String → HeadRes
  get : String → GetRes

/-- Observable side effects, in order of occurrence. -/
inductive Ev where
  | mkdirEv (d : String)
  | headReq (url : String)
  | getReq (url : String)
  | fileWrite (p : FPath)
  | fileDelete (p : FPath)
  | extractEv (zip : FPath) (d : String)
deriving DecidableEq

/-- The URLs of the HEAD probes in a trace; each call of the stream
downloader issues exactly one, so these enumerate the retrieval attempts. -/
def attemptUrls (evs : List Ev) : List String :=
  evs.filterMap fun e =>
    match e with
    | Ev.headReq u => some u
    | _ => none

/-- The network events (HEAD and GET requests) of a trace. -/
def netReqs (evs : List Ev) : List Ev :=
  evs.filter fun e =>
    match e with
    | Ev.headReq _ => true
    | Ev.getReq _ => true
    | _ => false

/-- Result of one `_download_stream` call: an exception escaped (`err`),
the server said 404 (`notFound`, the function returns `False`), or the body
was downloaded (`got`, the function returns `True`). -/
inductive SRes where
  | err : SRes
  | notFound : SRes
  | got (body : Bytes) : SRes
deriving DecidableEq

/-- Full observable outcome of one `_download_stream` call. -/
structure StreamOut where
  result : SRes
  fs : FS
  evs : List Ev
  totalSize : Nat

/-- `head.status_code == 404` guarded by `head is not None`. -/
def isHead404 : HeadRes → Bool
  | HeadRes.exn => false
  | HeadRes.resp s _ => s == 404

/-- The `total_size` the script derives from the HEAD response: the parsed
`content-length` when the status is 200, else 0 (unknown). -/
def probeSize : HeadRes → Nat
  | HeadRes.exn => 0
  | HeadRes.resp s cl => if s == 200 then cl.getD 0 else 0

/-- The pure decision of `_download_stream` for a URL: HEAD 404 gives
`notFound` with no GET; otherwise the GET decides — an exception is an
error, 404 is `notFound`, another unsuccessful status (`raise_for_status`
raises for 400 ≤ status < 600) is an error, and a success downloads
the body. -/
def streamDecision (net : Net) (url : String) : SRes :=
  if isHead404 (net.head url) then SRes.notFound
  else
    match net.get url with
    | GetRes.exn => SRes.err
    | GetRes.resp s body =>
      if s == 404 then SRes.notFound
      else if 400 ≤ s ∧ s < 600 then SRes.err
      else SRes.got body

/-- Embedding of `_download_stream(url, dest, description)`: make the parent
directory, issue the HEAD probe (a HEAD exception is absorbed), return
`False` on HEAD 404 without issuing the GET, then issue the GET and either
fail, return `False` on 404, raise on another unsuccessful status, or write
the streamed body to `dest` and return `True`. -/
def download_stream (net : Net) (url : String) (dest : FPath) (fs : FS) : StreamOut :=
  let fs1 := mkdirFS fs dest.dir
  let hd := net.head url
  if isHead404 hd then
    ⟨SRes.notFound, fs1, [Ev.mkdirEv dest.dir, Ev.headReq url], 0⟩
  else
    let sz := probeSize hd
    match net.get url with
    | GetRes.exn =>
      ⟨SRes.err, fs1, [Ev.mkdirEv dest.dir, Ev.headReq url, Ev.getReq url], sz⟩
    | GetRes.resp s body =>
      if s == 404 then
        ⟨SRes.notFound, fs1, [Ev.mkdirEv dest.dir, Ev.headReq url, Ev.getReq url], sz⟩
      else if 400 ≤ s ∧ s < 600 then
        ⟨SRes.err, fs1, [Ev.mkdirEv dest.dir, Ev.headReq url, Ev.getReq url], sz⟩
      else
        ⟨SRes.got body, writeFile fs1 dest body,
          [Ev.mkdirEv dest.dir, Ev.headReq url, Ev.getReq url, Ev.fileWrite dest], sz⟩

/-- `HF_OWNER` configuration constant. -/
def HF_OWNER : String := "neashton"

/-- `HF_PREFIX` configuration constant. -/
def HF_PREFIX : String := "drivaerml"

/-- `BASE_URL.format(owner=..., prefix=..., run_dir=..., fname=...)`. -/
def baseUrl (owner pfx run_dir fname : String) : String :=
  "https://huggingface.co/datasets/" ++ owner ++ "/" ++ pfx ++
    "/resolve/main/" ++ run_dir ++ "/" ++ fname

/-- The URL the script builds for a file of a run. -/
def mkUrl (run_dir fname : String) : String :=
  baseUrl HF_OWNER HF_PREFIX run_dir fname

/-- Python `f"{i:02d}"`: decimal digits, left-padded with zeros to width at
least 2. -/
def pad2 (i : Nat) : String :=
  if i < 10 then "0" ++ Nat.repr i else Nat.repr i

/-- `f"{fname}{part_suffix}"` with `part_suffix = f".{part_idx:02d}.part"`. -/
def partFname (fname : String) (i : Nat) : String :=
  fname ++ "." ++ pad2 i ++ ".part"

/-- The URL of fragment `i` of a logical file. -/
def purl (run_dir fname : String) (i : Nat) : String :=
  mkUrl run_dir (partFname fname i)

/-- The local path of fragment `i`: `dest_path.parent / part_fname`. -/
def ppath (destDir fname : String) (i : Nat) : FPath :=
  ⟨destDir, partFname fname i⟩

/-- Python's string ordering: lexicographic comparison by code point. -/
def lexLt : List Char → List Char → Bool
  | [], [] => false
  | [], _ :: _ => true
  | _ :: _, [] => false
  | a :: as, b :: bs =>
    if a.toNat < b.toNat then true
    else if b.toNat < a.toNat then false
    else lexLt as bs

/-- Strict string comparison, as Python compares `str` values. -/
def strLt (a b : String) : Bool := lexLt a.data b.data

/-- Non-strict string comparison, as Python compares `str` values. -/
def strLe (a b : String) : Bool := ! lexLt b.data a.data

/-- Python's ordering on `Path` values: compare the directory part, then the
filename part (for paths sharing a parent this is Python's path order). -/
def pathLe (a b : FPath) : Prop :=
  strLt a.dir b.dir = true ∨ (a.dir = b.dir ∧ strLe a.name b.name = true)

instance : DecidableRel pathLe := fun a b => by
  unfold pathLe
  infer_instance

/-- Python's `sorted` on a list of paths: the unique `pathLe`-sorted
permutation (realised with insertion sort; `pathLe` is total and
antisymmetric, so any comparison sort agrees). -/
def pySorted (ps : List FPath) : List FPath :=
  List.insertionSort pathLe ps

/-- Sequential buffered copy of the listed files into one byte string, in
list order; `none` when some listed file is missing (`open` would raise). -/
def readConcat (fs : FS) : List FPath → Option Bytes
  | [] => some []
  | p :: ps =>
    match fs.files p, readConcat fs ps with
    | some b, some rest => some (b ++ rest)
    | _, _ => none

/-- Result of the fragment-discovery loop `for part_idx in count(0)`:
`fuelOut` models non-termination (the modelled fuel ran out while the code
would keep iterating), `errOut` a propagating exception, and `out` the
normal exit at the first not-found index, carrying the collected fragment
paths in collection order. -/
inductive LoopOut where
  | fuelOut : LoopOut
  | errOut (fs : FS) (evs : List Ev) : LoopOut
  | out (parts : List FPath) (fs : FS) (evs : List Ev) : LoopOut

/-- The fragment-discovery loop of `download_direct_or_parts`, with fuel. -/
def partLoop (net : Net) (run_dir fname destDir : String) :
    Nat → Nat → FS → LoopOut
  | 0, _, _ => LoopOut.fuelOut
  | fuel + 1, idx, fs =>
    let pf := partFname fname idx
    let so := download_stream net (mkUrl run_dir pf) ⟨destDir, pf⟩ fs
    match so.result with
    | SRes.err => LoopOut.errOut so.fs so.evs
    | SRes.notFound => LoopOut.out [] so.fs so.evs
    | SRes.got _ =>
      match partLoop net run_dir fname destDir fuel (idx + 1) so.fs with
      | LoopOut.fuelOut => LoopOut.fuelOut
      | LoopOut.errOut fs2 evs2 => LoopOut.errOut fs2 (so.evs ++ evs2)
      | LoopOut.out ps fs2 evs2 => LoopOut.out (⟨destDir, pf⟩ :: ps) fs2 (so.evs ++ evs2)

/-- How one call of `download_direct_or_parts` ended. -/
inductive Outcome where
  | alreadyPresent : Outcome
  | downloaded : Outcome
  | notFound : Outcome
  | assembled (n : Nat) : Outcome
  | errorOut : Outcome
  | diverge : Outcome
deriving DecidableEq

/-- Full observable outcome of one `download_direct_or_parts` call. -/
structure RunOut where
  outcome : Outcome
  fs : FS
  evs : List Ev

/-- Embedding of `download_direct_or_parts(run_dir, fname, dest)`: skip when
the destination exists; try the direct download; on its 404 run the fragment
loop; report when no fragment was found; otherwise concatenate the sorted
fragment files into the destination and unlink every fragment.  (In the
model the assembly step reads all fragments and then writes the destination
once; the script interleaves the writes, which is indistinguishable here
because a read can only fail for a missing fragment file and the loop just
wrote every listed fragment.) -/
def download_direct_or_parts (net : Net) (run_dir fname : String) (dest : FPath)
    (fs : FS) (fuel : Nat) : RunOut :=
  if (fs.files dest).isSome then ⟨Outcome.alreadyPresent, fs, []⟩
  else
    let so := download_stream net (mkUrl run_dir fname) dest fs
    match so.result with
    | SRes.err => ⟨Outcome.errorOut, so.fs, so.evs⟩
    | SRes.got _ => ⟨Outcome.downloaded, so.fs, so.evs⟩
    | SRes.notFound =>
      match partLoop net run_dir fname dest.dir fuel 0 so.fs with
      | LoopOut.fuelOut => ⟨Outcome.diverge, so.fs, so.evs⟩
      | LoopOut.errOut fs2 evs2 => ⟨Outcome.errorOut, fs2, so.evs ++ evs2⟩
      | LoopOut.out parts fs2 evs2 =>
        if parts.isEmpty then ⟨Outcome.notFound, fs2, so.evs ++ evs2⟩
        else
          match readConcat fs2 (pySorted parts) with
          | none => ⟨Outcome.errorOut, fs2, so.evs ++ evs2⟩
          | some content =>
            ⟨Outcome.assembled parts.length,
              parts.foldl deleteFile (writeFile fs2 dest content),
              so.evs ++ evs2 ++ [Ev.fileWrite dest] ++ parts.map Ev.fileDelete⟩

/-- A test network built from a finite URL table: listed URLs respond 200
(HEAD reports the length, GET serves the body), all others respond 404. -/
def netOfList (l : List (String × Bytes)) : Net where
  head url :=
    match l.lookup url with
    | some b => HeadRes.resp 200 (some b.length)
    | none => HeadRes.resp 404 none
  get url :=
    match l.lookup url with
    | some b => GetRes.resp 200 b
    | none => GetRes.resp 404 []

/-- The filesystem effect of the successful iterations of the fragment loop:
one mkdir plus one fragment-file write per downloaded index, left to right. -/
def writeParts (destDir fname : String) (content : Nat → Bytes) (fs : FS) (l : List Nat) : FS :=
  l.foldl (fun f i => writeFile (mkdirFS f destDir) (ppath destDir fname i) (content i)) fs

/-- The filesystem state right after the fragment loop of a run whose direct
attempt said 404 and whose fragments 0..n-1 downloaded: the destination
directory was made, then each fragment file written. -/
def loopFS (destDir fname : String) (content : Nat → Bytes) (fs0 : FS) (n : Nat) : FS :=
  mkdirFS (writeParts destDir fname content (mkdirFS fs0 destDir) (List.range n)) destDir

/-- The index ordering induced by comparing fragment paths the way Python's
`sorted` compares them. -/
def idxLe (destDir fname : String) (i j : Nat) : Prop :=
  pathLe (ppath destDir fname i) (ppath destDir fname j)

instance : DecidableRel (idxLe d f) := fun i j => by
  unfold idxLe
  infer_instance

/-- The remote table of the 101-fragment scenario: fragments 0..100 exist
(fragment `i` holding the single byte `i`), nothing else does. -/
def cTable : List (String × Bytes) := (List.range 101).map fun i => (purl "r" "f" i, [i])

/-- The network of the 101-fragment scenario. -/
def cNet : Net := netOfList cTable

/-- A small test network: fragments 0, 1, 2 of `f` in run directory `r`
exist with bodies `[1, 2]`, `[3]`, `[4, 5, 6]`; everything else is 404. -/
def wNet : Net :=
  netOfList [(purl "r" "f" 0, [1, 2]), (purl "r" "f" 1, [3]), (purl "r" "f" 2, [4, 5, 6])]

/-- A test network where every HEAD answers 404: no remote file exists. -/
def gNet0 : Net := ⟨fun _ => HeadRes.resp 404 none, fun _ => GetRes.resp 404 []⟩

/-- A test network in which the direct URL itself exists. -/
def dNet : Net := netOfList [(mkUrl "r" "f", [7, 8])]

/-- A test network whose every response is HTTP 500. -/
def eNet : Net := ⟨fun _ => HeadRes.resp 500 none, fun _ => GetRes.resp 500 []⟩

/-- A test network whose HEAD always raises and whose GET serves `[5]`. -/
def fNet : Net := ⟨fun _ => HeadRes.exn, fun _ => GetRes.resp 200 [5]⟩

/-- A test network whose HEAD always answers 404. -/
def gNet : Net := ⟨fun _ => HeadRes.resp 404 none, fun _ => GetRes.resp 200 []⟩

/-! ### `airfrans/download.py`: `download_and_extract` -/

/-- How one `download_and_extract` call ended: normally, or with an
exception (HTTP error status, network failure, or a bad zip file). -/
inductive DEOutcome where
  | ok : DEOutcome
  | errorOut : DEOutcome
deriving DecidableEq

/-- Full observable outcome of one `download_and_extract` call. -/
structure DEOut where
  outcome : DEOutcome
  fs : FS
  evs : List Ev

/-- The download phase of `download_and_extract`: when neither the zip file
nor the extracted directory exists, HEAD the URL (`raise_for_status` raises
for 400 ≤ status < 600, and a request exception propagates), then stream
the GET into the zip path; otherwise skip with no request. -/
def dlPhase (net : Net) (zipPath : FPath) (url : String) (extractedDir : String)
    (fs : FS) : DEOut :=
  if (fs.files zipPath).isNone ∧ fs.dirs extractedDir = false then
    match net.head url with
    | HeadRes.exn => ⟨DEOutcome.errorOut, fs, [Ev.headReq url]⟩
    | HeadRes.resp s _ =>
      if 400 ≤ s ∧ s < 600 then ⟨DEOutcome.errorOut, fs, [Ev.headReq url]⟩
      else
        match net.get url with
        | GetRes.exn => ⟨DEOutcome.errorOut, fs, [Ev.headReq url, Ev.getReq url]⟩
        | GetRes.resp s2 body =>
          if 400 ≤ s2 ∧ s2 < 600 then
            ⟨DEOutcome.errorOut, fs, [Ev.headReq url, Ev.getReq url]⟩
          else
            ⟨DEOutcome.ok, writeFile fs zipPath body,
              [Ev.headReq url, Ev.getReq url, Ev.fileWrite zipPath]⟩
  else ⟨DEOutcome.ok, fs, []⟩

/-- Embedding of `download_and_extract(zip_file, url, extracted_dir, ...)`:
run the download phase; then, if a zip file is present (pre-existing or
freshly downloaded), extract it into the extraction directory and unlink
it.  `unzip` is the oracle for `zipfile.ZipFile(...).extractall`: given the
zip bytes it yields the archive entries (name, content) written under the
extraction directory, or `none` when the archive is invalid (`BadZipFile`
propagates). -/
def download_and_extract (net : Net) (unzip : Bytes → Option (List (String × Bytes)))
    (zipPath : FPath) (url : String) (extractedDir : String) (fs : FS) : DEOut :=
  let dl := dlPhase net zipPath url extractedDir fs
  match dl.outcome with
  | DEOutcome.errorOut => dl
  | DEOutcome.ok =>
    match dl.fs.files zipPath with
    | none => dl
    | some zbytes =>
      match unzip zbytes with
      | none => ⟨DEOutcome.errorOut, dl.fs, dl.evs⟩
      | some entries =>
        ⟨DEOutcome.ok,
         deleteFile (entries.foldl (fun f e => writeFile f ⟨extractedDir, e.1⟩ e.2)
           (mkdirFS dl.fs extractedDir)) zipPath,
         dl.evs ++ [Ev.extractEv zipPath extractedDir, Ev.fileDelete zipPath]⟩


/-! ### Properties of the code-point ordering -/

lemma char_toNat_inj {a b : Char} (h : a.toNat = b.toNat) : a = b :=
  Char.ext (UInt32.toNat.inj h)

lemma lexLt_irrefl : ∀ a, lexLt a a = false
  | [] => rfl
  | c :: cs => by simp [lexLt, lexLt_irrefl cs]

lemma lexLt_append_same : ∀ p a b, lexLt (p ++ a) (p ++ b) = lexLt a b
  | [], _, _ => rfl
  | c :: cs, a, b => by simp [lexLt, lexLt_append_same cs a b]

lemma lexLt_asymm : ∀ a b, lexLt a b = true → lexLt b a = false
  | [], [] => by simp [lexLt]
  | [], _ :: _ => fun _ => rfl
  | _ :: _, [] => by simp [lexLt]
  | a :: as, b :: bs => by
    simp only [lexLt]
    by_cases h1 : a.toNat < b.toNat
    · have h2 : ¬ b.toNat < a.toNat := by omega
      simp [h1, h2]
    · by_cases h2 : b.toNat < a.toNat
      · simp [h1, h2]
      · simp only [h1, h2, if_false]
        exact lexLt_asymm as bs

lemma lexLt_eq_of_both_false : ∀ a b, lexLt a b = false → lexLt b a = false → a = b
  | [], [] => fun _ _ => rfl
  | [], _ :: _ => by simp [lexLt]
  | _ :: _, [] => by simp [lexLt]
  | a :: as, b :: bs => by
    simp only [lexLt]
    by_cases h1 : a.toNat < b.toNat
    · simp [h1]
    · by_cases h2 : b.toNat < a.toNat
      · simp [h1, h2]
      · simp only [h1, h2, if_false]
        intro ha hb
        have hab : a = b := char_toNat_inj (by omega)
        rw [hab, lexLt_eq_of_both_false as bs ha hb]

lemma lexLt_trans : ∀ a b c, lexLt a b = true → lexLt b c = true → lexLt a c = true
  | [], [], [] => by simp [lexLt]
  | [], _ :: _, [] => by simp [lexLt]
  | [], _, _ :: _ => fun _ _ => rfl
  | _ :: _, [], _ => by simp [lexLt]
  | _ :: _, _ :: _, [] => by simp [lexLt]
  | a :: as, b :: bs, c :: cs => by
    simp only [lexLt]
    by_cases h1 : a.toNat < b.toNat <;> by_cases h2 : b.toNat < c.toNat
    · have h3 : a.toNat < c.toNat := by omega
      simp [h3]
    · by_cases h4 : c.toNat < b.toNat
      · simp only [h1, h2, h4, if_true, if_false]
        intro _ h
        exact absurd h (by simp)
      · have hbc : b.toNat = c.toNat := by omega
        have h3 : a.toNat < c.toNat := by omega
        simp [h3]
    · by_cases h4 : b.toNat < a.toNat
      · simp only [h1, h4, if_true, if_false]
        intro h
        exact absurd h (by simp)
      · have hab : a.toNat = b.toNat := by omega
        have h3 : a.toNat < c.toNat := by omega
        simp [h3]
    · by_cases h4 : b.toNat < a.toNat
      · simp only [h1, h4, if_true, if_false]
        intro h
        exact absurd h (by simp)
      · by_cases h5 : c.toNat < b.toNat
        · simp only [h2, h5, if_true, if_false]
          intro _ h
          exact absurd h (by simp)
        · have hab : a.toNat = b.toNat := by omega
          have hbc : b.toNat = c.toNat := by omega
          have g1 : ¬ a.toNat < c.toNat := by omega
          have g2 : ¬ c.toNat < a.toNat := by omega
          simp only [h1, h2, h4, h5, g1, g2, if_false]
          exact lexLt_trans as bs cs

lemma lexLt_trichotomy (a b : List Char) :
    lexLt a b = true ∨ lexLt b a = true ∨ a = b := by
  by_cases h1 : lexLt a b = true
  · exact Or.inl h1
  · by_cases h2 : lexLt b a = true
    · exact Or.inr (Or.inl h2)
    · exact Or.inr (Or.inr (lexLt_eq_of_both_false a b
        (Bool.not_eq_true _ ▸ h1) (Bool.not_eq_true _ ▸ h2)))

lemma strLt_trans {a b c : String} (h1 : strLt a b = true) (h2 : strLt b c = true) :
    strLt a c = true :=
  lexLt_trans a.data b.data c.data h1 h2

lemma strLe_antisymm {a b : String} (h1 : strLe a b = true) (h2 : strLe b a = true) :
    a = b := by
  unfold strLe at h1 h2
  simp only [Bool.not_eq_true'] at h1 h2
  exact String.ext (lexLt_eq_of_both_false a.data b.data h2 h1)

instance : IsTrans FPath pathLe where
  trans a b c hab hbc := by
    rcases hab with h1 | ⟨e1, n1⟩ <;> rcases hbc with h2 | ⟨e2, n2⟩
    · exact Or.inl (strLt_trans h1 h2)
    · exact Or.inl (e2 ▸ h1)
    · exact Or.inl (e1 ▸ h2)
    · refine Or.inr ⟨e1.trans e2, ?_⟩
      unfold strLe at n1 n2 ⊢
      simp only [Bool.not_eq_true'] at n1 n2 ⊢
      by_cases hca : lexLt c.name.data a.name.data = true
      · rcases lexLt_trichotomy b.name.data a.name.data with h | h | h
        · exact absurd h (by simp [n1])
        · exact absurd (lexLt_trans _ _ _ hca h) (by simp [n2])
        · exact absurd (h ▸ hca) (by simp [n2])
      · exact Bool.not_eq_true _ ▸ hca

instance : IsTotal FPath pathLe where
  total a b := by
    rcases lexLt_trichotomy a.dir.data b.dir.data with h | h | h
    · exact Or.inl (Or.inl h)
    · exact Or.inr (Or.inl h)
    · have e : a.dir = b.dir := String.ext h
      by_cases hn : lexLt b.name.data a.name.data = true
      · have h0 := lexLt_asymm _ _ hn
        exact Or.inr (Or.inr ⟨e.symm, by simp [strLe, h0]⟩)
      · exact Or.inl (Or.inr ⟨e, by simp [strLe, Bool.not_eq_true _ ▸ hn]⟩)

instance : IsAntisymm FPath pathLe where
  antisymm a b hab hba := by
    rcases hab with h1 | ⟨e1, n1⟩
    · rcases hba with h2 | ⟨e2, n2⟩
      · exact absurd h2 (by simp [strLt, lexLt_asymm _ _ h1])
      · exact absurd h1 (by simp [strLt, e2, lexLt_irrefl])
    · rcases hba with h2 | ⟨e2, n2⟩
      · exact absurd h2 (by simp [strLt, e1, lexLt_irrefl])
      · cases a with
        | mk ad an =>
          cases b with
          | mk bd bn =>
            simp only at e1 n1 n2
            simp [e1, strLe_antisymm n1 n2]

/-! ### Characterisation of one `_download_stream` call -/

lemma ds_result (net : Net) (url : String) (dest : FPath) (fs : FS) :
    (download_stream net url dest fs).result = streamDecision net url := by
  unfold download_stream streamDecision
  by_cases h : isHead404 (net.head url)
  · simp [h]
  · simp only [h, if_false, Bool.false_eq_true]
    cases hg : net.get url with
    | exn => rfl
    | resp s body =>
      by_cases h4 : (s == 404) = true
      · simp [h4]
      · by_cases h5 : 400 ≤ s ∧ s < 600 <;> simp [h4, h5]

lemma ds_fs_of_notFound (net : Net) (url : String) (dest : FPath) (fs : FS)
    (h : streamDecision net url = SRes.notFound) :
    (download_stream net url dest fs).fs = mkdirFS fs dest.dir := by
  unfold download_stream streamDecision at *
  by_cases hh : isHead404 (net.head url)
  · simp [hh]
  · simp only [hh, if_false, Bool.false_eq_true] at h ⊢
    cases hg : net.get url with
    | exn => simp [hg] at h
    | resp s body =>
      rw [hg] at h
      by_cases h4 : (s == 404) = true
      · simp [h4]
      · by_cases h5 : 400 ≤ s ∧ s < 600 <;> simp [h4, h5] at h ⊢

lemma ds_fs_of_err (net : Net) (url : String) (dest : FPath) (fs : FS)
    (h : streamDecision net url = SRes.err) :
    (download_stream net url dest fs).fs = mkdirFS fs dest.dir := by
  unfold download_stream streamDecision at *
  by_cases hh : isHead404 (net.head url)
  · simp [hh] at h
  · simp only [hh, if_false, Bool.false_eq_true] at h ⊢
    cases hg : net.get url with
    | exn => simp [hg]
    | resp s body =>
      rw [hg] at h
      by_cases h4 : (s == 404) = true
      · simp [h4] at h
      · by_cases h5 : 400 ≤ s ∧ s < 600 <;> simp [h4, h5] at h ⊢

lemma ds_fs_of_got (net : Net) (url : String) (dest : FPath) (fs : FS) (b : Bytes)
    (h : streamDecision net url = SRes.got b) :
    (download_stream net url dest fs).fs = writeFile (mkdirFS fs dest.dir) dest b := by
  unfold download_stream streamDecision at *
  by_cases hh : isHead404 (net.head url)
  · simp [hh] at h
  · simp only [hh, if_false, Bool.false_eq_true] at h ⊢
    cases hg : net.get url with
    | exn => simp [hg] at h
    | resp s body =>
      rw [hg] at h
      by_cases h4 : (s == 404) = true
      · simp [h4] at h
      · by_cases h5 : 400 ≤ s ∧ s < 600 <;> simp [h4, h5] at h ⊢
        rw [h]

lemma ds_attempts (net : Net) (url : String) (dest : FPath) (fs : FS) :
    attemptUrls (download_stream net url dest fs).evs = [url] := by
  unfold download_stream
  by_cases hh : isHead404 (net.head url)
  · simp [hh, attemptUrls]
  · simp only [hh, if_false, Bool.false_eq_true]
    cases hg : net.get url with
    | exn => simp [attemptUrls]
    | resp s body =>
      by_cases h4 : (s == 404) = true
      · simp [h4, attemptUrls]
      · by_cases h5 : 400 ≤ s ∧ s < 600 <;> simp [h4, h5, attemptUrls]

lemma ds_no_write_of_notFound (net : Net) (url : String) (dest : FPath) (fs : FS)
    (h : streamDecision net url = SRes.notFound) :
    ∀ p, Ev.fileWrite p ∉ (download_stream net url dest fs).evs := by
  unfold download_stream streamDecision at *
  by_cases hh : isHead404 (net.head url)
  · simp [hh]
  · simp only [hh, if_false, Bool.false_eq_true] at h ⊢
    cases hg : net.get url with
    | exn => simp [hg] at h
    | resp s body =>
      rw [hg] at h
      by_cases h4 : (s == 404) = true
      · simp [h4]
      · by_cases h5 : 400 ≤ s ∧ s < 600 <;> simp [h4, h5] at h ⊢

lemma ds_evs_head (net : Net) (url : String) (dest : FPath) (fs : FS) :
    ((download_stream net url dest fs).evs).head? = some (Ev.mkdirEv dest.dir) := by
  unfold download_stream
  by_cases hh : isHead404 (net.head url)
  · simp [hh]
  · simp only [hh, if_false, Bool.false_eq_true]
    cases hg : net.get url with
    | exn => rfl
    | resp s body =>
      by_cases h4 : (s == 404) = true
      · simp [h4]
      · by_cases h5 : 400 ≤ s ∧ s < 600 <;> simp [h4, h5]

lemma ds_files_of_notFound (net : Net) (url : String) (dest : FPath) (fs : FS)
    (h : streamDecision net url = SRes.notFound) :
    ∀ p, (download_stream net url dest fs).fs.files p = fs.files p := by
  rw [ds_fs_of_notFound net url dest fs h]
  intro p
  rfl

lemma ds_dirs (net : Net) (url : String) (dest : FPath) (fs : FS) :
    (download_stream net url dest fs).fs.dirs = (mkdirFS fs dest.dir).dirs := by
  unfold download_stream
  by_cases hh : isHead404 (net.head url)
  · simp [hh]
  · simp only [hh, if_false, Bool.false_eq_true]
    cases hg : net.get url with
    | exn => rfl
    | resp s body =>
      by_cases h4 : (s == 404) = true
      · simp [h4]
      · by_cases h5 : 400 ≤ s ∧ s < 600 <;> simp [h4, h5, writeFile]

/-! ### The fragment loop and its filesystem effect -/

lemma partLoop_spec (net : Net) (run_dir fname destDir : String) (content : Nat → Bytes)
    (n : Nat)
    (hfound : ∀ i, i < n → streamDecision net (purl run_dir fname i) = SRes.got (content i))
    (hstop : streamDecision net (purl run_dir fname n) = SRes.notFound) :
    ∀ fuel j fs, j ≤ n → n - j < fuel →
      ∃ evs, partLoop net run_dir fname destDir fuel j fs =
          LoopOut.out ((List.range' j (n - j)).map (ppath destDir fname))
            (mkdirFS (writeParts destDir fname content fs (List.range' j (n - j))) destDir) evs ∧
        attemptUrls evs = (List.range' j (n - j + 1)).map (purl run_dir fname) := by
  intro fuel
  induction fuel with
  | zero =>
    intro j fs hj hf
    omega
  | succ fuel ih =>
    intro j fs hj hf
    by_cases hjn : j = n
    · subst hjn
      have hres : (download_stream net (mkUrl run_dir (partFname fname j))
          ⟨destDir, partFname fname j⟩ fs).result = SRes.notFound :=
        (ds_result _ _ _ _).trans hstop
      refine ⟨(download_stream net (mkUrl run_dir (partFname fname j))
          ⟨destDir, partFname fname j⟩ fs).evs, ?_, ?_⟩
      · simp only [partLoop, hres]
        have hfs := ds_fs_of_notFound net (purl run_dir fname j)
          ⟨destDir, partFname fname j⟩ fs hstop
        simp only [Nat.sub_self, List.range'_zero, List.map_nil]
        rw [show purl run_dir fname j = mkUrl run_dir (partFname fname j) from rfl] at hfs
        rw [hfs]
        rfl
      · rw [show attemptUrls (download_stream net (mkUrl run_dir (partFname fname j))
            ⟨destDir, partFname fname j⟩ fs).evs = [mkUrl run_dir (partFname fname j)] from
          ds_attempts _ _ _ _]
        simp [Nat.sub_self, List.range'_succ]
        rfl
    · have hjlt : j < n := Nat.lt_of_le_of_ne hj hjn
      have hres : (download_stream net (mkUrl run_dir (partFname fname j))
          ⟨destDir, partFname fname j⟩ fs).result = SRes.got (content j) :=
        (ds_result _ _ _ _).trans (hfound j hjlt)
      have hfs := ds_fs_of_got net (purl run_dir fname j)
        ⟨destDir, partFname fname j⟩ fs (content j) (hfound j hjlt)
      rw [show purl run_dir fname j = mkUrl run_dir (partFname fname j) from rfl] at hfs
      obtain ⟨evs2, hrec, hatt⟩ := ih (j + 1)
        (writeFile (mkdirFS fs destDir) (ppath destDir fname j) (content j))
        (by omega) (by omega)
      have hk : n - j = (n - (j + 1)) + 1 := by omega
      have hk2 : n - j + 1 = (n - (j + 1) + 1) + 1 := by omega
      refine ⟨(download_stream net (mkUrl run_dir (partFname fname j))
          ⟨destDir, partFname fname j⟩ fs).evs ++ evs2, ?_, ?_⟩
      · simp only [partLoop, hres]
        have hfs2 : (download_stream net (mkUrl run_dir (partFname fname j))
            ⟨destDir, partFname fname j⟩ fs).fs =
            writeFile (mkdirFS fs destDir) (ppath destDir fname j) (content j) := hfs
        rw [hfs2, hrec, hk, List.range'_succ, List.map_cons]
        rfl
      · rw [attemptUrls, List.filterMap_append]
        rw [show List.filterMap _ (download_stream net (mkUrl run_dir (partFname fname j))
            ⟨destDir, partFname fname j⟩ fs).evs = [mkUrl run_dir (partFname fname j)] from
          ds_attempts _ _ _ _]
        rw [show List.filterMap _ evs2 = attemptUrls evs2 from rfl, hatt]
        rw [hk2, List.range'_succ, List.map_cons]
        rfl

lemma partLoop_parts_shape (net : Net) (run_dir fname destDir : String) :
    ∀ fuel j fs parts fs2 evs2,
      partLoop net run_dir fname destDir fuel j fs = LoopOut.out parts fs2 evs2 →
      ∀ p ∈ parts, ∃ i, p = ⟨destDir, partFname fname i⟩ := by
  intro fuel
  induction fuel with
  | zero =>
    intro j fs parts fs2 evs2 h
    simp [partLoop] at h
  | succ fuel ih =>
    intro j fs parts fs2 evs2 h
    simp only [partLoop] at h
    split at h
    · simp at h
    · simp only [LoopOut.out.injEq] at h
      rw [← h.1]
      intro p hp
      cases hp
    · split at h
      · simp at h
      · simp at h
      · rename_i ps fs3 evs3 hrec
        simp only [LoopOut.out.injEq] at h
        rw [← h.1]
        intro p hp
        rcases List.mem_cons.mp hp with rfl | hp2
        · exact ⟨j, rfl⟩
        · exact ih (j + 1) _ ps fs3 evs3 hrec p hp2

lemma writeParts_files_notMem (destDir fname : String) (content : Nat → Bytes) :
    ∀ (l : List Nat) (fs : FS) (p : FPath), p ∉ l.map (ppath destDir fname) →
      (writeParts destDir fname content fs l).files p = fs.files p := by
  intro l
  induction l with
  | nil =>
    intro fs p _
    rfl
  | cons i t ih =>
    intro fs p h
    simp only [List.map_cons, List.mem_cons, not_or] at h
    unfold writeParts at ih ⊢
    rw [List.foldl_cons, ih _ p h.2]
    simp [writeFile, mkdirFS, h.1]

lemma writeParts_files_mem (destDir fname : String) (content : Nat → Bytes) :
    ∀ (l : List Nat), l.Pairwise (fun a b => ppath destDir fname a ≠ ppath destDir fname b) →
      ∀ fs i, i ∈ l →
        (writeParts destDir fname content fs l).files (ppath destDir fname i) =
          some (content i) := by
  intro l
  induction l with
  | nil =>
    intro _ fs i h
    cases h
  | cons a t ih =>
    intro hp fs i hi
    rw [List.pairwise_cons] at hp
    rcases List.mem_cons.mp hi with rfl | hit
    · have hnm : ppath destDir fname i ∉ t.map (ppath destDir fname) := by
        simp only [List.mem_map]
        rintro ⟨b, hb, he⟩
        exact hp.1 b hb he.symm
      unfold writeParts
      rw [List.foldl_cons]
      have hrest := writeParts_files_notMem destDir fname content t
        (writeFile (mkdirFS fs destDir) (ppath destDir fname i) (content i))
        (ppath destDir fname i) hnm
      unfold writeParts at hrest
      rw [hrest]
      simp [writeFile]
    · unfold writeParts
      rw [List.foldl_cons]
      exact ih hp.2 _ i hit

lemma writeParts_files_isSome (destDir fname : String) (content : Nat → Bytes) :
    ∀ (l : List Nat) (fs : FS) (p : FPath),
      (p ∈ l.map (ppath destDir fname) ∨ (fs.files p).isSome) →
      ((writeParts destDir fname content fs l).files p).isSome := by
  intro l
  induction l with
  | nil =>
    intro fs p h
    rcases h with h | h
    · cases h
    · exact h
  | cons a t ih =>
    intro fs p h
    unfold writeParts at ih ⊢
    rw [List.foldl_cons]
    apply ih
    by_cases hpa : p = ppath destDir fname a
    · subst hpa
      right
      simp [writeFile]
    · rcases h with h | h
      · simp only [List.map_cons, List.mem_cons] at h
        rcases h with h | h
        · exact absurd h hpa
        · exact Or.inl h
      · right
        simpa [writeFile, mkdirFS, hpa] using h

lemma foldl_deleteFile_files :
    ∀ (ps : List FPath) (fs : FS) (p : FPath),
      (ps.foldl deleteFile fs).files p = if p ∈ ps then none else fs.files p := by
  intro ps
  induction ps with
  | nil =>
    intro fs p
    simp
  | cons a t ih =>
    intro fs p
    rw [List.foldl_cons, ih]
    by_cases hpt : p ∈ t
    · simp [hpt]
    · by_cases hpa : p = a
      · subst hpa
        simp [hpt, deleteFile]
      · simp [hpt, hpa, deleteFile]

lemma readConcat_map_of_files (fs : FS) (destDir fname : String) (content : Nat → Bytes) :
    ∀ (l : List Nat), (∀ i ∈ l, fs.files (ppath destDir fname i) = some (content i)) →
      readConcat fs (l.map (ppath destDir fname)) = some ((l.map content).flatten) := by
  intro l
  induction l with
  | nil =>
    intro _
    rfl
  | cons a t ih =>
    intro h
    simp only [List.map_cons, readConcat, List.flatten_cons]
    rw [h a (List.mem_cons_self a t), ih fun i hi => h i (List.mem_cons_of_mem a hi)]

lemma readConcat_isSome (fs : FS) :
    ∀ (ps : List FPath), (∀ p ∈ ps, (fs.files p).isSome) →
      ∃ b, readConcat fs ps = some b := by
  intro ps
  induction ps with
  | nil =>
    intro _
    exact ⟨[], rfl⟩
  | cons a t ih =>
    intro h
    obtain ⟨b, hb⟩ := ih fun p hp => h p (List.mem_cons_of_mem a hp)
    have ha := h a (List.mem_cons_self a t)
    rcases hfa : fs.files a with _ | v
    · rw [hfa] at ha
      cases ha
    · refine ⟨v ++ b, ?_⟩
      simp only [readConcat, hfa, hb]

/-! ### Characterisation of a full fragment-mode acquisition -/

lemma mkdirFS_files (fs : FS) (d : String) : (mkdirFS fs d).files = fs.files := rfl

lemma fname_ne_partFname (fname : String) (i : Nat) : fname ≠ partFname fname i := by
  intro h
  have hd := congrArg String.data h
  simp only [partFname, String.data_append, List.append_assoc] at hd
  have hl := congrArg List.length hd
  rw [List.length_append] at hl
  have h1 : ("." : String).data.length = 1 := rfl
  have h5 : (".part" : String).data.length = 5 := rfl
  rw [List.length_append, List.length_append, h1, h5] at hl
  omega

lemma dest_ne_ppath (destDir fname : String) (i : Nat) :
    (⟨destDir, fname⟩ : FPath) ≠ ppath destDir fname i := by
  intro h
  rw [ppath, FPath.mk.injEq] at h
  exact fname_ne_partFname fname i h.2

lemma run_frag_spec (net : Net) (run_dir fname destDir : String) (content : Nat → Bytes)
    (n fuel : Nat) (fs0 : FS)
    (hdest : fs0.files ⟨destDir, fname⟩ = none)
    (hdir : streamDecision net (mkUrl run_dir fname) = SRes.notFound)
    (hfound : ∀ i, i < n → streamDecision net (purl run_dir fname i) = SRes.got (content i))
    (hstop : streamDecision net (purl run_dir fname n) = SRes.notFound)
    (hn : 0 < n) (hfuel : n < fuel) :
    ∃ evs bytes,
      download_direct_or_parts net run_dir fname ⟨destDir, fname⟩ fs0 fuel =
        ⟨Outcome.assembled n,
         ((List.range n).map (ppath destDir fname)).foldl deleteFile
           (writeFile (loopFS destDir fname content fs0 n) ⟨destDir, fname⟩ bytes),
         evs⟩ ∧
      readConcat (loopFS destDir fname content fs0 n)
        (pySorted ((List.range n).map (ppath destDir fname))) = some bytes ∧
      attemptUrls evs = mkUrl run_dir fname :: (List.range (n + 1)).map (purl run_dir fname) := by
  have hres : (download_stream net (mkUrl run_dir fname) ⟨destDir, fname⟩ fs0).result =
      SRes.notFound := (ds_result _ _ _ _).trans hdir
  obtain ⟨evs2, hloop, hatt⟩ := partLoop_spec net run_dir fname destDir content n hfound hstop
    fuel 0 (mkdirFS fs0 destDir) (by omega) (by omega)
  rw [Nat.sub_zero, ← List.range_eq_range'] at hloop
  rw [Nat.sub_zero, ← List.range_eq_range'] at hatt
  have hloop3 : partLoop net run_dir fname (FPath.mk destDir fname).dir fuel 0
      (download_stream net (mkUrl run_dir fname) ⟨destDir, fname⟩ fs0).fs =
      LoopOut.out ((List.range n).map (ppath destDir fname))
        (mkdirFS (writeParts destDir fname content (mkdirFS fs0 destDir) (List.range n))
          destDir) evs2 := by
    rw [show (download_stream net (mkUrl run_dir fname) ⟨destDir, fname⟩ fs0).fs =
        mkdirFS fs0 destDir from ds_fs_of_notFound _ _ _ _ hdir]
    exact hloop
  have hne : ((List.range n).map (ppath destDir fname)).isEmpty = false := by
    cases n with
    | zero => omega
    | succ m => simp [List.range_succ]
  have hmem : ∀ p ∈ pySorted ((List.range n).map (ppath destDir fname)),
      ((loopFS destDir fname content fs0 n).files p).isSome := by
    intro p hp
    have hp2 : p ∈ (List.range n).map (ppath destDir fname) :=
      (List.perm_insertionSort pathLe _).mem_iff.mp hp
    exact writeParts_files_isSome destDir fname content (List.range n) (mkdirFS fs0 destDir) p
      (Or.inl hp2)
  obtain ⟨bytes, hrc⟩ := readConcat_isSome _ _ hmem
  have hrc2 : readConcat
      (mkdirFS (writeParts destDir fname content (mkdirFS fs0 destDir) (List.range n)) destDir)
      (pySorted ((List.range n).map (ppath destDir fname))) = some bytes := hrc
  refine ⟨(download_stream net (mkUrl run_dir fname) ⟨destDir, fname⟩ fs0).evs ++ evs2 ++
    [Ev.fileWrite ⟨destDir, fname⟩] ++
    ((List.range n).map (ppath destDir fname)).map Ev.fileDelete, bytes, ?_, hrc, ?_⟩
  · simp only [download_direct_or_parts, hdest, Option.isSome_none, Bool.false_eq_true,
      if_false, hres, hloop3, hne, hrc2]
    simp [List.length_map, List.length_range, loopFS, List.map_map, List.append_assoc]
  · rw [attemptUrls, List.filterMap_append, List.filterMap_append, List.filterMap_append]
    rw [show List.filterMap _ (download_stream net (mkUrl run_dir fname)
        ⟨destDir, fname⟩ fs0).evs = [mkUrl run_dir fname] from ds_attempts _ _ _ _]
    rw [show List.filterMap _ evs2 = attemptUrls evs2 from rfl, hatt]
    simp [attemptUrls, List.filterMap_map]

lemma run_frag_notFound (net : Net) (run_dir fname destDir : String)
    (fuel : Nat) (fs0 : FS)
    (hdest : fs0.files ⟨destDir, fname⟩ = none)
    (hdir : streamDecision net (mkUrl run_dir fname) = SRes.notFound)
    (hstop : streamDecision net (purl run_dir fname 0) = SRes.notFound)
    (hfuel : 0 < fuel) :
    ∃ evs,
      download_direct_or_parts net run_dir fname ⟨destDir, fname⟩ fs0 fuel =
        ⟨Outcome.notFound, mkdirFS (mkdirFS fs0 destDir) destDir, evs⟩ ∧
      attemptUrls evs = [mkUrl run_dir fname, purl run_dir fname 0] := by
  have hres : (download_stream net (mkUrl run_dir fname) ⟨destDir, fname⟩ fs0).result =
      SRes.notFound := (ds_result _ _ _ _).trans hdir
  obtain ⟨evs2, hloop, hatt⟩ := partLoop_spec net run_dir fname destDir
    (fun _ => []) 0 (fun i hi => absurd hi (Nat.not_lt_zero i)) hstop
    fuel 0 (mkdirFS fs0 destDir) (by omega) (by omega)
  rw [Nat.sub_zero] at hloop hatt
  have hloop3 : partLoop net run_dir fname (FPath.mk destDir fname).dir fuel 0
      (download_stream net (mkUrl run_dir fname) ⟨destDir, fname⟩ fs0).fs =
      LoopOut.out [] (mkdirFS (mkdirFS fs0 destDir) destDir) evs2 := by
    rw [show (download_stream net (mkUrl run_dir fname) ⟨destDir, fname⟩ fs0).fs =
        mkdirFS fs0 destDir from ds_fs_of_notFound _ _ _ _ hdir]
    simpa [writeParts] using hloop
  refine ⟨(download_stream net (mkUrl run_dir fname) ⟨destDir, fname⟩ fs0).evs ++ evs2, ?_, ?_⟩
  · simp only [download_direct_or_parts, hdest, Option.isSome_none, Bool.false_eq_true,
      if_false, hres, hloop3, List.isEmpty_nil, if_true]
  · rw [attemptUrls, List.filterMap_append]
    rw [show List.filterMap _ (download_stream net (mkUrl run_dir fname)
        ⟨destDir, fname⟩ fs0).evs = [mkUrl run_dir fname] from ds_attempts _ _ _ _]
    rw [show List.filterMap _ evs2 = attemptUrls evs2 from rfl, hatt]
    rfl

/-! ### Ordering facts about fragment filenames -/

set_option maxRecDepth 10000 in
lemma pad2_suffix_lt : ∀ i, i < 100 → ∀ j, j < 100 → i < j →
    lexLt ("." ++ pad2 i ++ ".part").data ("." ++ pad2 j ++ ".part").data = true := by
  decide

lemma partFname_lt (fname : String) {i j : Nat} (hij : i < j) (hj : j < 100) :
    strLt (partFname fname i) (partFname fname j) = true := by
  have h := pad2_suffix_lt i (by omega) j hj hij
  unfold strLt
  simp only [partFname, String.data_append, List.append_assoc]
  rw [lexLt_append_same]
  simpa [String.data_append, List.append_assoc] using h

lemma strLe_of_strLt {a b : String} (h : strLt a b = true) : strLe a b = true := by
  unfold strLt at h
  unfold strLe
  rw [lexLt_asymm _ _ h]
  rfl

lemma strne_of_strLt {a b : String} (h : strLt a b = true) : a ≠ b := by
  intro he
  rw [he] at h
  unfold strLt at h
  rw [lexLt_irrefl] at h
  cases h

lemma ppath_le (destDir fname : String) {i j : Nat} (hij : i < j) (hj : j < 100) :
    pathLe (ppath destDir fname i) (ppath destDir fname j) :=
  Or.inr ⟨rfl, strLe_of_strLt (partFname_lt fname hij hj)⟩

lemma ppath_ne (destDir fname : String) {i j : Nat} (hij : i < j) (hj : j < 100) :
    ppath destDir fname i ≠ ppath destDir fname j := by
  intro h
  rw [ppath, ppath, FPath.mk.injEq] at h
  exact strne_of_strLt (partFname_lt fname hij hj) h.2

lemma parts_sorted (destDir fname : String) {n : Nat} (hn : n ≤ 100) :
    List.Sorted pathLe ((List.range n).map (ppath destDir fname)) := by
  rw [List.Sorted, List.pairwise_map]
  refine (List.pairwise_lt_range n).imp_of_mem ?_
  intro a b ha hb hab
  exact ppath_le destDir fname hab (by rw [List.mem_range] at hb; omega)

lemma parts_pairwise_ne (destDir fname : String) {n : Nat} (hn : n ≤ 100) :
    (List.range n).Pairwise (fun a b => ppath destDir fname a ≠ ppath destDir fname b) := by
  refine (List.pairwise_lt_range n).imp_of_mem ?_
  intro a b ha hb hab
  exact ppath_ne destDir fname hab (by rw [List.mem_range] at hb; omega)

lemma pySorted_of_perm {ps l : List FPath} (hp : ps.Perm l) (hs : List.Sorted pathLe l) :
    pySorted ps = l :=
  List.eq_of_perm_of_sorted ((List.perm_insertionSort pathLe ps).trans hp)
    (List.sorted_insertionSort pathLe ps) hs

lemma orderedInsert_map (destDir fname : String) (a : Nat) :
    ∀ l : List Nat,
      List.orderedInsert pathLe (ppath destDir fname a) (l.map (ppath destDir fname)) =
        (List.orderedInsert (idxLe destDir fname) a l).map (ppath destDir fname) := by
  intro l
  induction l with
  | nil => rfl
  | cons b t ih =>
    by_cases h : idxLe destDir fname a b
    · have h2 : pathLe (ppath destDir fname a) (ppath destDir fname b) := h
      simp [List.orderedInsert, h, h2]
    · have h2 : ¬ pathLe (ppath destDir fname a) (ppath destDir fname b) := h
      simp [List.orderedInsert, h, h2, ih]

lemma pySorted_map (destDir fname : String) :
    ∀ l : List Nat,
      pySorted (l.map (ppath destDir fname)) =
        (List.insertionSort (idxLe destDir fname) l).map (ppath destDir fname) := by
  intro l
  induction l with
  | nil => rfl
  | cons b t ih =>
    unfold pySorted at ih ⊢
    simp only [List.map_cons, List.insertionSort, ih]
    exact orderedInsert_map destDir fname b _

lemma flatten_map_singleton : ∀ l : List Nat, (l.map fun i => [i]).flatten = l := by
  intro l
  induction l with
  | nil => rfl
  | cons a t ih => simp [ih]

/-! ### Lookup tables and injectivity of fragment names -/

lemma lookup_map_keys (key : Nat → String) (val : Nat → Bytes) :
    ∀ l : List Nat, (∀ a ∈ l, ∀ b ∈ l, key a = key b → a = b) →
      ∀ i ∈ l, (l.map fun j => (key j, val j)).lookup (key i) = some (val i) := by
  intro l
  induction l with
  | nil =>
    intro _ i hi
    cases hi
  | cons a t ih =>
    intro hinj i hi
    rcases List.mem_cons.mp hi with rfl | hit
    · simp [List.lookup_cons]
    · by_cases hk : key i = key a
      · have : i = a := hinj i hi a (List.mem_cons_self a t) hk
        subst this
        simp [List.lookup_cons]
      · have hbeq : (key i == key a) = false := beq_eq_false_iff_ne.mpr hk
        simp only [List.map_cons, List.lookup_cons, hbeq]
        exact ih (fun x hx y hy => hinj x (List.mem_cons_of_mem a hx) y
          (List.mem_cons_of_mem a hy)) i hit

lemma lookup_map_keys_none (key : Nat → String) (val : Nat → Bytes) :
    ∀ l : List Nat, ∀ u : String, (∀ a ∈ l, key a ≠ u) →
      (l.map fun j => (key j, val j)).lookup u = none := by
  intro l
  induction l with
  | nil =>
    intro u _
    rfl
  | cons a t ih =>
    intro u h
    have hbeq : (u == key a) = false :=
      beq_eq_false_iff_ne.mpr fun he => h a (List.mem_cons_self a t) he.symm
    simp only [List.map_cons, List.lookup_cons, hbeq]
    exact ih u fun x hx => h x (List.mem_cons_of_mem a hx)

lemma string_append_left_cancel {p a b : String} (h : p ++ a = p ++ b) : a = b := by
  apply String.ext
  have hd := congrArg String.data h
  simp only [String.data_append] at hd
  exact List.append_cancel_left hd

lemma mkUrl_inj {run_dir a b : String} (h : mkUrl run_dir a = mkUrl run_dir b) : a = b := by
  unfold mkUrl baseUrl at h
  exact string_append_left_cancel h

lemma partFname_inj {fname : String} {i j : Nat} (h : partFname fname i = partFname fname j) :
    pad2 i = pad2 j := by
  have hd := congrArg String.data h
  simp only [partFname, String.data_append, List.append_assoc] at hd
  have h2 := List.append_cancel_left hd
  have h3 := List.append_cancel_left h2
  exact String.ext (List.append_cancel_right h3)

set_option maxRecDepth 10000 in
lemma pad2_inj_below102 : ∀ i, i < 102 → ∀ j, j < 102 → pad2 i = pad2 j → i = j := by
  decide

lemma purl_inj_below102 {run_dir fname : String} {i j : Nat}
    (hi : i < 102) (hj : j < 102) (h : purl run_dir fname i = purl run_dir fname j) : i = j :=
  pad2_inj_below102 i hi j hj (partFname_inj (mkUrl_inj h))

lemma ppath_inj_below102 {destDir fname : String} {i j : Nat}
    (hi : i < 102) (hj : j < 102) (h : ppath destDir fname i = ppath destDir fname j) : i = j := by
  rw [ppath, ppath, FPath.mk.injEq] at h
  exact pad2_inj_below102 i hi j hj (partFname_inj h.2)

lemma mkUrl_ne_purl (run_dir fname : String) (i : Nat) :
    mkUrl run_dir fname ≠ purl run_dir fname i :=
  fun h => fname_ne_partFname fname i (mkUrl_inj h)

/-! ### Claim C1 -/

/-- C1 (amended): for every acquisition that enters fragment mode and
retrieves `n` fragments with `1 ≤ n ≤ 100` (so that every fragment index
fits the two-digit zero-padded suffix), the assembled destination file's
bytes equal the concatenation of the fragment contents in ascending numeric
index order, and `sorted` applied to any enumeration order of the fragment
paths yields the same index-ordered list, so the result is independent of
the assembly-time enumeration order.  (The bound `n ≤ 100` is necessary:
with 101 fragments the suffix of index 100 has three digits and the
lexicographic sort misplaces it, see the counterexample.) -/
theorem c1_assembled_in_index_order
    (net : Net) (run_dir fname destDir : String) (content : Nat → Bytes)
    (n fuel : Nat) (fs0 : FS)
    (hdest : fs0.files ⟨destDir, fname⟩ = none)
    (hdir : streamDecision net (mkUrl run_dir fname) = SRes.notFound)
    (hfound : ∀ i, i < n → streamDecision net (purl run_dir fname i) = SRes.got (content i))
    (hstop : streamDecision net (purl run_dir fname n) = SRes.notFound)
    (hn : 0 < n) (hn100 : n ≤ 100) (hfuel : n < fuel) :
    (download_direct_or_parts net run_dir fname ⟨destDir, fname⟩ fs0 fuel).outcome =
      Outcome.assembled n ∧
    (download_direct_or_parts net run_dir fname ⟨destDir, fname⟩ fs0 fuel).fs.files
      ⟨destDir, fname⟩ = some ((List.range n).map content).flatten ∧
    (∀ ps : List FPath, ps.Perm ((List.range n).map (ppath destDir fname)) →
      pySorted ps = (List.range n).map (ppath destDir fname)) := by
  obtain ⟨evs, bytes, hrun, hrc, hatt⟩ := run_frag_spec net run_dir fname destDir content n fuel
    fs0 hdest hdir hfound hstop hn hfuel
  have hsorted := parts_sorted destDir fname (n := n) hn100
  have hsort_eq : pySorted ((List.range n).map (ppath destDir fname)) =
      (List.range n).map (ppath destDir fname) := List.Sorted.insertionSort_eq hsorted
  have hfiles : ∀ i ∈ List.range n,
      (loopFS destDir fname content fs0 n).files (ppath destDir fname i) = some (content i) :=
    fun i hi => writeParts_files_mem destDir fname content (List.range n)
      (parts_pairwise_ne destDir fname hn100) (mkdirFS fs0 destDir) i hi
  have hrc2 : readConcat (loopFS destDir fname content fs0 n)
      (pySorted ((List.range n).map (ppath destDir fname))) =
      some ((List.range n).map content).flatten := by
    rw [hsort_eq]
    exact readConcat_map_of_files _ _ _ _ _ hfiles
  have hbytes : bytes = ((List.range n).map content).flatten :=
    Option.some.inj (hrc.symm.trans hrc2)
  subst hbytes
  refine ⟨?_, ?_, ?_⟩
  · rw [hrun]
  · rw [hrun]
    show (((List.range n).map (ppath destDir fname)).foldl deleteFile
      (writeFile (loopFS destDir fname content fs0 n) ⟨destDir, fname⟩
        ((List.range n).map content).flatten)).files ⟨destDir, fname⟩ = _
    rw [foldl_deleteFile_files]
    have hnotin : (⟨destDir, fname⟩ : FPath) ∉ (List.range n).map (ppath destDir fname) := by
      simp only [List.mem_map]
      rintro ⟨i, hi, he⟩
      exact dest_ne_ppath destDir fname i he.symm
    rw [if_neg hnotin]
    simp [writeFile]
  · intro ps hps
    exact pySorted_of_perm hps hsorted

/-- Witness for `c1_assembled_in_index_order`: three fragments with bodies
`[1, 2]`, `[3]`, `[4, 5, 6]` assemble into `[1, 2, 3, 4, 5, 6]`. -/
theorem c1_assembled_in_index_order_witness :
    (download_direct_or_parts
      (netOfList [(purl "r" "f" 0, [1, 2]), (purl "r" "f" 1, [3]), (purl "r" "f" 2, [4, 5, 6])])
      "r" "f" ⟨"d", "f"⟩ emptyFS 10).outcome = Outcome.assembled 3 ∧
    (download_direct_or_parts
      (netOfList [(purl "r" "f" 0, [1, 2]), (purl "r" "f" 1, [3]), (purl "r" "f" 2, [4, 5, 6])])
      "r" "f" ⟨"d", "f"⟩ emptyFS 10).fs.files ⟨"d", "f"⟩ = some [1, 2, 3, 4, 5, 6] := by
  have h := c1_assembled_in_index_order
    (netOfList [(purl "r" "f" 0, [1, 2]), (purl "r" "f" 1, [3]), (purl "r" "f" 2, [4, 5, 6])])
    "r" "f" "d" (fun i => if i = 0 then [1, 2] else if i = 1 then [3] else [4, 5, 6])
    3 10 emptyFS rfl (by decide)
    (by
      intro i hi
      interval_cases i <;> decide)
    (by decide) (by omega) (by omega) (by omega)
  exact ⟨h.1, by rw [h.2.1]; rfl⟩

lemma cTable_lookup_found : ∀ i, i < 101 → cTable.lookup (purl "r" "f" i) = some [i] := by
  intro i hi
  exact lookup_map_keys (purl "r" "f") (fun i => [i]) (List.range 101)
    (fun a ha b hb h => purl_inj_below102 (by rw [List.mem_range] at ha; omega)
      (by rw [List.mem_range] at hb; omega) h) i (List.mem_range.mpr hi)

lemma cTable_lookup_stop : cTable.lookup (purl "r" "f" 101) = none := by
  apply lookup_map_keys_none
  intro a ha h
  have := purl_inj_below102 (by rw [List.mem_range] at ha; omega) (by omega) h
  rw [List.mem_range] at ha
  omega

lemma cTable_lookup_direct : cTable.lookup (mkUrl "r" "f") = none := by
  apply lookup_map_keys_none
  intro a ha h
  exact mkUrl_ne_purl "r" "f" a h.symm

lemma cnet_found : ∀ i, i < 101 → streamDecision cNet (purl "r" "f" i) = SRes.got [i] := by
  intro i hi
  have hl := cTable_lookup_found i hi
  simp [streamDecision, cNet, netOfList, hl, isHead404]

lemma cnet_stop : streamDecision cNet (purl "r" "f" 101) = SRes.notFound := by
  simp [streamDecision, cNet, netOfList, cTable_lookup_stop, isHead404]

lemma cnet_direct : streamDecision cNet (mkUrl "r" "f") = SRes.notFound := by
  simp [streamDecision, cNet, netOfList, cTable_lookup_direct, isHead404]

set_option maxRecDepth 100000 in
lemma sortIdx101_ne : List.insertionSort (idxLe "d" "f") (List.range 101) ≠ List.range 101 := by
  decide

lemma loopFS_files (destDir fname : String) (content : Nat → Bytes) (fs0 : FS) (n : Nat) :
    (loopFS destDir fname content fs0 n).files =
      (writeParts destDir fname content (mkdirFS fs0 destDir) (List.range n)).files := rfl

/-- C1 counterexample: an acquisition that retrieves 101 fragments (indices
0..100, fragment `i` holding byte `i`) assembles a destination whose bytes
are NOT the concatenation of the fragment contents in ascending numeric
index order: `sorted` compares path strings lexicographically and places
`f.100.part` between `f.10.part` and `f.11.part`. -/
theorem c1_counterexample :
    (download_direct_or_parts cNet "r" "f" ⟨"d", "f"⟩ emptyFS 102).outcome =
      Outcome.assembled 101 ∧
    (download_direct_or_parts cNet "r" "f" ⟨"d", "f"⟩ emptyFS 102).fs.files ⟨"d", "f"⟩ ≠
      some ((List.range 101).map fun i => [i]).flatten := by
  obtain ⟨evs, bytes, hrun, hrc, hatt⟩ := run_frag_spec cNet "r" "f" "d" (fun i => [i]) 101 102
    emptyFS rfl cnet_direct cnet_found cnet_stop (by omega) (by omega)
  have hpw : (List.range 101).Pairwise (fun a b => ppath "d" "f" a ≠ ppath "d" "f" b) := by
    refine (List.pairwise_lt_range 101).imp_of_mem ?_
    intro a b ha hb hab h
    have := ppath_inj_below102 (by rw [List.mem_range] at ha; omega)
      (by rw [List.mem_range] at hb; omega) h
    omega
  have hfiles : ∀ i ∈ List.insertionSort (idxLe "d" "f") (List.range 101),
      (loopFS "d" "f" (fun i => [i]) emptyFS 101).files (ppath "d" "f" i) = some [i] := by
    intro i hi
    have hi2 : i ∈ List.range 101 := (List.perm_insertionSort _ _).mem_iff.mp hi
    rw [loopFS_files]
    exact writeParts_files_mem "d" "f" _ (List.range 101) hpw (mkdirFS emptyFS "d") i hi2
  have hrc2 : readConcat (loopFS "d" "f" (fun i => [i]) emptyFS 101)
      (pySorted ((List.range 101).map (ppath "d" "f"))) =
      some (List.insertionSort (idxLe "d" "f") (List.range 101)) := by
    rw [pySorted_map, readConcat_map_of_files _ _ _ _ _ hfiles, flatten_map_singleton]
  have hbytes : bytes = List.insertionSort (idxLe "d" "f") (List.range 101) :=
    Option.some_inj.mp (hrc.symm.trans hrc2)
  constructor
  · rw [hrun]
  · rw [hrun]
    show (((List.range 101).map (ppath "d" "f")).foldl deleteFile
      (writeFile (loopFS "d" "f" (fun i => [i]) emptyFS 101) ⟨"d", "f"⟩ bytes)).files
        ⟨"d", "f"⟩ ≠ _
    rw [foldl_deleteFile_files]
    have hnotin : (⟨"d", "f"⟩ : FPath) ∉ (List.range 101).map (ppath "d" "f") := by
      simp only [List.mem_map]
      rintro ⟨i, hi, he⟩
      exact dest_ne_ppath "d" "f" i he.symm
    rw [if_neg hnotin, flatten_map_singleton]
    rw [show (writeFile (loopFS "d" "f" (fun i => [i]) emptyFS 101) ⟨"d", "f"⟩ bytes).files
        ⟨"d", "f"⟩ = some bytes from by simp [writeFile]]
    rw [hbytes]
    intro h
    exact sortIdx101_ne (Option.some_inj.mp h)

/-! ### Claims C2, C3, C5 -/

/-- C2: in a fragment-mode acquisition with fragments present at indices
0..n-1 and index n missing, the fragment loop issues exactly n+1 retrieval
attempts — at the URLs of the logical filename suffixed with "." plus the
two-digit zero-padded index plus ".part", for indices 0..n — after the one
direct attempt, and assembles exactly n fragments (outcome `assembled n`
when n > 0, `notFound` when n = 0). -/
theorem c2_fragment_termination
    (net : Net) (run_dir fname destDir : String) (content : Nat → Bytes)
    (n fuel : Nat) (fs0 : FS)
    (hdest : fs0.files ⟨destDir, fname⟩ = none)
    (hdir : streamDecision net (mkUrl run_dir fname) = SRes.notFound)
    (hfound : ∀ i, i < n → streamDecision net (purl run_dir fname i) = SRes.got (content i))
    (hstop : streamDecision net (purl run_dir fname n) = SRes.notFound)
    (hfuel : n < fuel) :
    attemptUrls (download_direct_or_parts net run_dir fname ⟨destDir, fname⟩ fs0 fuel).evs =
      mkUrl run_dir fname ::
        (List.range (n + 1)).map (fun i => mkUrl run_dir (fname ++ "." ++ pad2 i ++ ".part")) ∧
    (0 < n → (download_direct_or_parts net run_dir fname ⟨destDir, fname⟩ fs0 fuel).outcome =
      Outcome.assembled n) ∧
    (n = 0 → (download_direct_or_parts net run_dir fname ⟨destDir, fname⟩ fs0 fuel).outcome =
      Outcome.notFound) := by
  rcases Nat.eq_zero_or_pos n with rfl | hn
  · obtain ⟨evs, hrun, hatt⟩ := run_frag_notFound net run_dir fname destDir fuel fs0
      hdest hdir hstop hfuel
    refine ⟨?_, fun h => by omega, fun _ => by rw [hrun]⟩
    rw [hrun]
    show attemptUrls evs = _
    rw [hatt]
    rfl
  · obtain ⟨evs, bytes, hrun, hrc, hatt⟩ := run_frag_spec net run_dir fname destDir content n
      fuel fs0 hdest hdir hfound hstop hn hfuel
    refine ⟨?_, fun _ => by rw [hrun], fun h => by omega⟩
    rw [hrun]
    show attemptUrls evs = _
    rw [hatt]
    rfl

/-- Witness for `c2_fragment_termination`: with fragments at 0, 1, 2 and
index 3 missing, four fragment attempts follow the direct attempt and three
fragments are assembled. -/
theorem c2_fragment_termination_witness :
    attemptUrls (download_direct_or_parts wNet "r" "f" ⟨"d", "f"⟩ emptyFS 10).evs =
      mkUrl "r" "f" ::
        (List.range 4).map (fun i => mkUrl "r" ("f" ++ "." ++ pad2 i ++ ".part")) ∧
    (download_direct_or_parts wNet "r" "f" ⟨"d", "f"⟩ emptyFS 10).outcome =
      Outcome.assembled 3 := by
  have h := c2_fragment_termination wNet "r" "f" "d"
    (fun i => if i = 0 then [1, 2] else if i = 1 then [3] else [4, 5, 6])
    3 10 emptyFS rfl (by decide)
    (by
      intro i hi
      interval_cases i <;> decide)
    (by decide) (by omega)
  exact ⟨h.1, h.2.1 (by omega)⟩

/-- C3: when the direct retrieval reports 404 — whether the HEAD probe or
the streaming GET returns status 404 — the stream downloader returns the
not-found signal rather than raising, and the run triggers exactly one
fragment-discovery sequence, attempting fragment indices 0, 1, ..., up to
the first missing one, after the single direct attempt. -/
theorem c3_fallback_trigger
    (net : Net) (run_dir fname destDir : String) (content : Nat → Bytes)
    (n fuel : Nat) (fs0 : FS)
    (hdest : fs0.files ⟨destDir, fname⟩ = none)
    (h404 : (∃ cl, net.head (mkUrl run_dir fname) = HeadRes.resp 404 cl) ∨
      (∃ b, net.get (mkUrl run_dir fname) = GetRes.resp 404 b))
    (hfound : ∀ i, i < n → streamDecision net (purl run_dir fname i) = SRes.got (content i))
    (hstop : streamDecision net (purl run_dir fname n) = SRes.notFound)
    (hfuel : n < fuel) :
    (download_stream net (mkUrl run_dir fname) ⟨destDir, fname⟩ fs0).result =
      SRes.notFound ∧
    attemptUrls (download_direct_or_parts net run_dir fname ⟨destDir, fname⟩ fs0 fuel).evs =
      mkUrl run_dir fname :: (List.range (n + 1)).map (purl run_dir fname) := by
  have hdir : streamDecision net (mkUrl run_dir fname) = SRes.notFound := by
    rcases h404 with ⟨cl, hh⟩ | ⟨b, hg⟩
    · unfold streamDecision
      rw [hh]
      simp [isHead404]
    · unfold streamDecision
      by_cases hh : isHead404 (net.head (mkUrl run_dir fname))
      · simp [hh]
      · simp [hh, hg]
  refine ⟨(ds_result _ _ _ _).trans hdir, ?_⟩
  rcases Nat.eq_zero_or_pos n with rfl | hn
  · obtain ⟨evs, hrun, hatt⟩ := run_frag_notFound net run_dir fname destDir fuel fs0
      hdest hdir hstop hfuel
    rw [hrun]
    show attemptUrls evs = _
    rw [hatt]
    rfl
  · obtain ⟨evs, bytes, hrun, hrc, hatt⟩ := run_frag_spec net run_dir fname destDir content n
      fuel fs0 hdest hdir hfound hstop hn hfuel
    rw [hrun]
    show attemptUrls evs = _
    exact hatt

/-- Witness for `c3_fallback_trigger`: direct 404 on the test network
leads to the single discovery sequence attempting indices 0..3. -/
theorem c3_fallback_trigger_witness :
    (download_stream wNet (mkUrl "r" "f") ⟨"d", "f"⟩ emptyFS).result = SRes.notFound ∧
    attemptUrls (download_direct_or_parts wNet "r" "f" ⟨"d", "f"⟩ emptyFS 10).evs =
      mkUrl "r" "f" :: (List.range 4).map (purl "r" "f") :=
  c3_fallback_trigger wNet "r" "f" "d"
    (fun i => if i = 0 then [1, 2] else if i = 1 then [3] else [4, 5, 6])
    3 10 emptyFS rfl (Or.inl ⟨none, by decide⟩)
    (by
      intro i hi
      interval_cases i <;> decide)
    (by decide) (by omega)

/-- C5: starting from a filesystem with no fragment files and no
destination file, after a successful assembly no fragment file remains and
the destination exists; after a `notFound` outcome (zero fragments) the
file map is unchanged — the destination does not exist and no partial
file remains. -/
theorem c5_cleanup_invariant
    (net : Net) (run_dir fname destDir : String) (content : Nat → Bytes)
    (n fuel : Nat) (fs0 : FS)
    (hdest : fs0.files ⟨destDir, fname⟩ = none)
    (hnoparts : ∀ i, fs0.files (ppath destDir fname i) = none)
    (hdir : streamDecision net (mkUrl run_dir fname) = SRes.notFound)
    (hfound : ∀ i, i < n → streamDecision net (purl run_dir fname i) = SRes.got (content i))
    (hstop : streamDecision net (purl run_dir fname n) = SRes.notFound)
    (hfuel : n < fuel) :
    (0 < n →
      (download_direct_or_parts net run_dir fname ⟨destDir, fname⟩ fs0 fuel).outcome =
        Outcome.assembled n ∧
      (∀ i, (download_direct_or_parts net run_dir fname ⟨destDir, fname⟩ fs0 fuel).fs.files
        (ppath destDir fname i) = none) ∧
      ((download_direct_or_parts net run_dir fname ⟨destDir, fname⟩ fs0 fuel).fs.files
        ⟨destDir, fname⟩).isSome = true) ∧
    (n = 0 →
      (download_direct_or_parts net run_dir fname ⟨destDir, fname⟩ fs0 fuel).outcome =
        Outcome.notFound ∧
      (∀ p, (download_direct_or_parts net run_dir fname ⟨destDir, fname⟩ fs0 fuel).fs.files p =
        fs0.files p)) := by
  have hnotindest : (⟨destDir, fname⟩ : FPath) ∉ (List.range n).map (ppath destDir fname) := by
    simp only [List.mem_map]
    rintro ⟨i, hi, he⟩
    exact dest_ne_ppath destDir fname i he.symm
  constructor
  · intro hn
    obtain ⟨evs, bytes, hrun, hrc, hatt⟩ := run_frag_spec net run_dir fname destDir content n
      fuel fs0 hdest hdir hfound hstop hn hfuel
    refine ⟨by rw [hrun], ?_, ?_⟩
    · intro i
      rw [hrun]
      show (((List.range n).map (ppath destDir fname)).foldl deleteFile
        (writeFile (loopFS destDir fname content fs0 n) ⟨destDir, fname⟩ bytes)).files
          (ppath destDir fname i) = none
      rw [foldl_deleteFile_files]
      by_cases hmem : ppath destDir fname i ∈ (List.range n).map (ppath destDir fname)
      · rw [if_pos hmem]
      · rw [if_neg hmem]
        have hne : ppath destDir fname i ≠ ⟨destDir, fname⟩ :=
          fun h => dest_ne_ppath destDir fname i h.symm
        rw [show (writeFile (loopFS destDir fname content fs0 n) ⟨destDir, fname⟩ bytes).files
            (ppath destDir fname i) =
            (loopFS destDir fname content fs0 n).files (ppath destDir fname i) from by
          simp [writeFile, hne]]
        rw [loopFS_files]
        rw [writeParts_files_notMem destDir fname content (List.range n)
          (mkdirFS fs0 destDir) _ hmem]
        exact hnoparts i
    · rw [hrun]
      show ((((List.range n).map (ppath destDir fname)).foldl deleteFile
        (writeFile (loopFS destDir fname content fs0 n) ⟨destDir, fname⟩ bytes)).files
          ⟨destDir, fname⟩).isSome = true
      rw [foldl_deleteFile_files, if_neg hnotindest]
      simp [writeFile]
  · intro hn0
    subst hn0
    obtain ⟨evs, hrun, hatt⟩ := run_frag_notFound net run_dir fname destDir fuel fs0
      hdest hdir hstop hfuel
    refine ⟨by rw [hrun], ?_⟩
    intro p
    rw [hrun]
    rfl

/-- Witness for `c5_cleanup_invariant`: after the three-fragment assembly,
every fragment path is empty and the destination exists. -/
theorem c5_cleanup_invariant_witness :
    (download_direct_or_parts wNet "r" "f" ⟨"d", "f"⟩ emptyFS 10).outcome =
      Outcome.assembled 3 ∧
    (download_direct_or_parts wNet "r" "f" ⟨"d", "f"⟩ emptyFS 10).fs.files
      (ppath "d" "f" 0) = none ∧
    (download_direct_or_parts wNet "r" "f" ⟨"d", "f"⟩ emptyFS 10).fs.files
      (ppath "d" "f" 1) = none ∧
    (download_direct_or_parts wNet "r" "f" ⟨"d", "f"⟩ emptyFS 10).fs.files
      (ppath "d" "f" 2) = none ∧
    ((download_direct_or_parts wNet "r" "f" ⟨"d", "f"⟩ emptyFS 10).fs.files
      ⟨"d", "f"⟩).isSome = true := by
  have h := c5_cleanup_invariant wNet "r" "f" "d"
    (fun i => if i = 0 then [1, 2] else if i = 1 then [3] else [4, 5, 6])
    3 10 emptyFS rfl (fun i => rfl) (by decide)
    (by
      intro i hi
      interval_cases i <;> decide)
    (by decide) (by omega)
  obtain ⟨ho, hp, hd⟩ := h.1 (by omega)
  exact ⟨ho, hp 0, hp 1, hp 2, hd⟩

/-! ### Claim C4 -/

lemma run_already_present (net : Net) (run_dir fname : String) (dest : FPath) (fs : FS)
    (fuel : Nat) (hp : (fs.files dest).isSome = true) :
    download_direct_or_parts net run_dir fname dest fs fuel =
      ⟨Outcome.alreadyPresent, fs, []⟩ := by
  unfold download_direct_or_parts
  rw [if_pos hp]

lemma run_success_dest_some (net : Net) (run_dir fname destDir : String) (fs0 : FS) (fuel : Nat)
    (h : (download_direct_or_parts net run_dir fname ⟨destDir, fname⟩ fs0 fuel).outcome =
        Outcome.downloaded ∨
      ∃ k, (download_direct_or_parts net run_dir fname ⟨destDir, fname⟩ fs0 fuel).outcome =
        Outcome.assembled k) :
    ((download_direct_or_parts net run_dir fname ⟨destDir, fname⟩ fs0 fuel).fs.files
      ⟨destDir, fname⟩).isSome = true := by
  by_cases hpres : (fs0.files ⟨destDir, fname⟩).isSome = true
  · rw [run_already_present net run_dir fname ⟨destDir, fname⟩ fs0 fuel hpres] at h ⊢
    exact hpres
  · simp only [download_direct_or_parts, hpres, if_false, Bool.false_eq_true] at h ⊢
    split at h
    · rcases h with h | ⟨k, h⟩ <;> simp at h
    · rename_i b hres
      rw [show (download_stream net (mkUrl run_dir fname) ⟨destDir, fname⟩ fs0).fs =
        writeFile (mkdirFS fs0 (FPath.mk destDir fname).dir) ⟨destDir, fname⟩ b from
        ds_fs_of_got net (mkUrl run_dir fname) ⟨destDir, fname⟩ fs0 b
          ((ds_result _ _ _ _).symm.trans hres)]
      simp [writeFile]
    · rename_i hres
      split at h
      · rcases h with h | ⟨k, h⟩ <;> simp at h
      · rcases h with h | ⟨k, h⟩ <;> simp at h
      · rename_i parts fs2 evs2 hloop
        split at h
        · rcases h with h | ⟨k, h⟩ <;> simp at h
        · rename_i hemp
          split at h
          · rcases h with h | ⟨k, h⟩ <;> simp at h
          · rename_i b hread
            try rw [if_neg hemp]
            try rw [hread]
            show ((parts.foldl deleteFile
              (writeFile fs2 ⟨destDir, fname⟩ b)).files ⟨destDir, fname⟩).isSome = true
            rw [foldl_deleteFile_files]
            have hnotin : (⟨destDir, fname⟩ : FPath) ∉ parts := by
              intro hmem
              obtain ⟨i, hie⟩ := partLoop_parts_shape net run_dir fname
                destDir fuel 0 _ parts fs2 evs2 hloop
                ⟨destDir, fname⟩ hmem
              rw [FPath.mk.injEq] at hie
              exact fname_ne_partFname fname i hie.2
            rw [if_neg hnotin]
            simp [writeFile]

/-- C4: if the destination file already exists, the acquisition returns at
once with an empty event trace — no network request, no filesystem change;
consequently, after a first call that ends `downloaded` or `assembled`, a
second call for the same identity and destination (over any network) issues
zero requests and changes nothing. -/
theorem c4_already_present_short_circuit
    (net net2 : Net) (run_dir fname destDir : String) (fs0 : FS) (fuel fuel2 k : Nat) :
    (∀ fs : FS, (fs.files ⟨destDir, fname⟩).isSome = true →
      download_direct_or_parts net run_dir fname ⟨destDir, fname⟩ fs fuel =
        ⟨Outcome.alreadyPresent, fs, []⟩) ∧
    ((download_direct_or_parts net run_dir fname ⟨destDir, fname⟩ fs0 fuel).outcome =
        Outcome.downloaded ∨
      (download_direct_or_parts net run_dir fname ⟨destDir, fname⟩ fs0 fuel).outcome =
        Outcome.assembled k →
      download_direct_or_parts net2 run_dir fname ⟨destDir, fname⟩
        (download_direct_or_parts net run_dir fname ⟨destDir, fname⟩ fs0 fuel).fs fuel2 =
        ⟨Outcome.alreadyPresent,
         (download_direct_or_parts net run_dir fname ⟨destDir, fname⟩ fs0 fuel).fs, []⟩) := by
  refine ⟨fun fs hp => run_already_present net run_dir fname ⟨destDir, fname⟩ fs fuel hp, ?_⟩
  intro h
  exact run_already_present net2 run_dir fname ⟨destDir, fname⟩ _ fuel2
    (run_success_dest_some net run_dir fname destDir fs0 fuel
      (h.imp id fun hh => ⟨k, hh⟩))

/-- C4 counterexample: against a network where nothing exists, a first
`acquire` call ends `NotFound` without creating the destination, so a
second call for the same identity and destination is NOT short-circuited:
it issues network requests again, refuting the unconditional reading of
"the second call issues zero requests". -/
theorem c4_counterexample :
    (download_direct_or_parts gNet0 "r" "f" ⟨"d", "f"⟩ emptyFS 5).outcome =
      Outcome.notFound ∧
    netReqs (download_direct_or_parts gNet0 "r" "f" ⟨"d", "f"⟩
      (download_direct_or_parts gNet0 "r" "f" ⟨"d", "f"⟩ emptyFS 5).fs 5).evs ≠ [] := by
  decide

/-- Witness for `c4_already_present_short_circuit`: a first call downloads
the file directly; the second call returns `AlreadyPresent` with an empty
event trace; likewise a call on a filesystem already holding the file. -/
theorem c4_already_present_short_circuit_witness :
    download_direct_or_parts dNet "r" "f" ⟨"d", "f"⟩
      (writeFile emptyFS ⟨"d", "f"⟩ [9]) 5 =
      ⟨Outcome.alreadyPresent, writeFile emptyFS ⟨"d", "f"⟩ [9], []⟩ ∧
    (download_direct_or_parts dNet "r" "f" ⟨"d", "f"⟩ emptyFS 5).outcome =
      Outcome.downloaded ∧
    download_direct_or_parts dNet "r" "f" ⟨"d", "f"⟩
      (download_direct_or_parts dNet "r" "f" ⟨"d", "f"⟩ emptyFS 5).fs 5 =
      ⟨Outcome.alreadyPresent,
       (download_direct_or_parts dNet "r" "f" ⟨"d", "f"⟩ emptyFS 5).fs, []⟩ :=
  ⟨(c4_already_present_short_circuit dNet dNet "r" "f" "d" emptyFS 5 5 0).1 _ (by decide),
   by decide,
   (c4_already_present_short_circuit dNet dNet "r" "f" "d" emptyFS 5 5 0).2
     (Or.inl (by decide))⟩

/-! ### Claims C6, C7, C8, C9 -/

/-- C6: when the mandatory streaming GET receives an unsuccessful HTTP
status other than 404 (and the HEAD probe did not already report 404, so
the GET is actually issued), the stream downloader raises
(`raise_for_status`), and the acquisition of the current target aborts with
an error outcome. -/
theorem c6_transport_error_aborts
    (net : Net) (run_dir fname destDir : String) (fs0 : FS) (fuel s : Nat) (b : Bytes)
    (hdest : fs0.files ⟨destDir, fname⟩ = none)
    (hhead : ∀ cl, net.head (mkUrl run_dir fname) ≠ HeadRes.resp 404 cl)
    (hget : net.get (mkUrl run_dir fname) = GetRes.resp s b)
    (hs404 : s ≠ 404) (hs4 : 400 ≤ s) (hs6 : s < 600) :
    (download_stream net (mkUrl run_dir fname) ⟨destDir, fname⟩ fs0).result = SRes.err ∧
    (download_direct_or_parts net run_dir fname ⟨destDir, fname⟩ fs0 fuel).outcome =
      Outcome.errorOut := by
  have hdec : streamDecision net (mkUrl run_dir fname) = SRes.err := by
    unfold streamDecision
    have hh : isHead404 (net.head (mkUrl run_dir fname)) = false := by
      rcases hnh : net.head (mkUrl run_dir fname) with _ | ⟨s2, cl⟩
      · rfl
      · have hs2 : s2 ≠ 404 := fun he => hhead cl (by rw [hnh, he])
        simp [isHead404, hs2]
    rw [hh, hget]
    simp [hs404, hs4, hs6]
  have hres : (download_stream net (mkUrl run_dir fname) ⟨destDir, fname⟩ fs0).result =
    SRes.err := (ds_result _ _ _ _).trans hdec
  refine ⟨hres, ?_⟩
  simp only [download_direct_or_parts, hdest, Option.isSome_none, Bool.false_eq_true,
    if_false, hres]

/-- Witness for `c6_transport_error_aborts` at HTTP status 500. -/
theorem c6_transport_error_aborts_witness :
    (download_stream eNet (mkUrl "r" "f") ⟨"d", "f"⟩ emptyFS).result = SRes.err ∧
    (download_direct_or_parts eNet "r" "f" ⟨"d", "f"⟩ emptyFS 5).outcome =
      Outcome.errorOut :=
  c6_transport_error_aborts eNet "r" "f" "d" emptyFS 5 500 [] rfl
    (fun cl h => by simp [eNet] at h) rfl (by omega) (by omega) (by omega)

/-- C7: when the HEAD size probe raises, the failure is absorbed: the
streaming GET is still issued and, when it succeeds, the complete body is
written to the destination; only the progress total degrades to 0
(unknown size). -/
theorem c7_probe_failure_nonfatal
    (net : Net) (url : String) (dest : FPath) (fs : FS) (s : Nat) (body : Bytes)
    (hhead : net.head url = HeadRes.exn)
    (hget : net.get url = GetRes.resp s body)
    (hs : s < 400) :
    (download_stream net url dest fs).result = SRes.got body ∧
    (download_stream net url dest fs).fs.files dest = some body ∧
    Ev.getReq url ∈ (download_stream net url dest fs).evs ∧
    (download_stream net url dest fs).totalSize = 0 := by
  have h404 : (s == 404) = false := by
    simp only [beq_eq_false_iff_ne, ne_eq]
    omega
  have h45 : ¬ (400 ≤ s ∧ s < 600) := by omega
  unfold download_stream
  rw [hhead, hget]
  simp [isHead404, probeSize, h404, h45, writeFile]

/-- Witness for `c7_probe_failure_nonfatal`. -/
theorem c7_probe_failure_nonfatal_witness :
    (download_stream fNet "u" ⟨"d", "f"⟩ emptyFS).result = SRes.got [5] ∧
    (download_stream fNet "u" ⟨"d", "f"⟩ emptyFS).fs.files ⟨"d", "f"⟩ = some [5] ∧
    Ev.getReq "u" ∈ (download_stream fNet "u" ⟨"d", "f"⟩ emptyFS).evs ∧
    (download_stream fNet "u" ⟨"d", "f"⟩ emptyFS).totalSize = 0 :=
  c7_probe_failure_nonfatal fNet "u" ⟨"d", "f"⟩ emptyFS 200 [5] rfl rfl (by omega)

/-- C8: when the HEAD probe answers 404, the stream downloader returns the
not-found signal immediately: the GET request is never issued, no file is
touched, and only the parent mkdir and the HEAD request happen. -/
theorem c8_head404_skips_get
    (net : Net) (url : String) (dest : FPath) (fs : FS) (cl : Option Nat)
    (hhead : net.head url = HeadRes.resp 404 cl) :
    download_stream net url dest fs =
      ⟨SRes.notFound, mkdirFS fs dest.dir, [Ev.mkdirEv dest.dir, Ev.headReq url], 0⟩ ∧
    ∀ u, Ev.getReq u ∉ (download_stream net url dest fs).evs := by
  have h : download_stream net url dest fs =
      ⟨SRes.notFound, mkdirFS fs dest.dir, [Ev.mkdirEv dest.dir, Ev.headReq url], 0⟩ := by
    unfold download_stream
    rw [hhead]
    simp [isHead404]
  refine ⟨h, ?_⟩
  rw [h]
  intro u
  simp

/-- Witness for `c8_head404_skips_get`. -/
theorem c8_head404_skips_get_witness :
    download_stream gNet "u" ⟨"d", "f"⟩ emptyFS =
      ⟨SRes.notFound, mkdirFS emptyFS "d", [Ev.mkdirEv "d", Ev.headReq "u"], 0⟩ ∧
    ∀ u, Ev.getReq u ∉ (download_stream gNet "u" ⟨"d", "f"⟩ emptyFS).evs :=
  c8_head404_skips_get gNet "u" ⟨"d", "f"⟩ emptyFS none rfl

/-- C9: when a stream download returns the not-found signal, the file map is
untouched — the destination is neither created nor written — and the
directory map gains exactly the destination's parent; moreover every stream
download, whatever its outcome, begins with that parent mkdir before any
network request. -/
theorem c9_notfound_frame
    (net : Net) (url : String) (dest : FPath) (fs : FS)
    (hres : (download_stream net url dest fs).result = SRes.notFound) :
    (∀ p, (download_stream net url dest fs).fs.files p = fs.files p) ∧
    ((download_stream net url dest fs).fs.dirs = (mkdirFS fs dest.dir).dirs) ∧
    (∀ p, Ev.fileWrite p ∉ (download_stream net url dest fs).evs) ∧
    (∀ (net2 : Net) (url2 : String) (fs2 : FS),
      ((download_stream net2 url2 dest fs2).evs).head? = some (Ev.mkdirEv dest.dir)) := by
  have hdec : streamDecision net url = SRes.notFound := (ds_result _ _ _ _).symm.trans hres
  exact ⟨ds_files_of_notFound net url dest fs hdec, ds_dirs net url dest fs,
    ds_no_write_of_notFound net url dest fs hdec,
    fun net2 url2 fs2 => ds_evs_head net2 url2 dest fs2⟩

/-- Witness for `c9_notfound_frame` on the all-404 network. -/
theorem c9_notfound_frame_witness :
    (download_stream gNet "u" ⟨"d", "f"⟩ emptyFS).fs.files ⟨"d", "f"⟩ =
      emptyFS.files ⟨"d", "f"⟩ ∧
    (∀ p, Ev.fileWrite p ∉ (download_stream gNet "u" ⟨"d", "f"⟩ emptyFS).evs) ∧
    ((download_stream gNet "u" ⟨"d", "f"⟩ emptyFS).evs).head? =
      some (Ev.mkdirEv "d") := by
  have h := c9_notfound_frame gNet "u" ⟨"d", "f"⟩ emptyFS (by decide)
  exact ⟨h.1 _, h.2.2.1, h.2.2.2 gNet "u" emptyFS⟩

lemma dlPhase_skip (net : Net) (zipPath : FPath) (url : String) (extractedDir : String)
    (fs : FS) (hc : ¬ ((fs.files zipPath).isNone ∧ fs.dirs extractedDir = false)) :
    dlPhase net zipPath url extractedDir fs = ⟨DEOutcome.ok, fs, []⟩ := by
  unfold dlPhase
  rw [if_neg hc]

lemma dlPhase_fs_files (net : Net) (zipPath : FPath) (url : String) (extractedDir : String)
    (fs : FS) (q : FPath) (hq : q ≠ zipPath) :
    (dlPhase net zipPath url extractedDir fs).fs.files q = fs.files q := by
  unfold dlPhase
  split
  · split
    · rfl
    · split
      · rfl
      · split
        · rfl
        · split
          · rfl
          · simp [writeFile, hq]
  · rfl

lemma dlPhase_cases (net : Net) (zipPath : FPath) (url : String) (extractedDir : String)
    (fs : FS) :
    (∃ evs0, dlPhase net zipPath url extractedDir fs = ⟨DEOutcome.errorOut, fs, evs0⟩) ∨
    (∃ body, dlPhase net zipPath url extractedDir fs =
      ⟨DEOutcome.ok, writeFile fs zipPath body,
       [Ev.headReq url, Ev.getReq url, Ev.fileWrite zipPath]⟩) ∨
    dlPhase net zipPath url extractedDir fs = ⟨DEOutcome.ok, fs, []⟩ := by
  unfold dlPhase
  split
  · split
    · exact Or.inl ⟨_, rfl⟩
    · split
      · exact Or.inl ⟨_, rfl⟩
      · split
        · exact Or.inl ⟨_, rfl⟩
        · split
          · exact Or.inl ⟨_, rfl⟩
          · exact Or.inr (Or.inl ⟨_, rfl⟩)
  · exact Or.inr (Or.inr rfl)

/-- C10: `download_and_extract` never leaves a file at the zip path when it
returns without an exception; the download is skipped (no network request)
when the zip file or the extracted directory already exists; and whenever a
zip file is present after the download phase — pre-existing, or freshly
written by the download — the call (when it returns normally) extracts it
into the extraction directory and deletes it. -/
theorem c10_zip_removed (net : Net) (unzip : Bytes → Option (List (String × Bytes)))
    (zipPath : FPath) (url : String) (extractedDir : String) (fs : FS) :
    ((download_and_extract net unzip zipPath url extractedDir fs).outcome = DEOutcome.ok →
      (download_and_extract net unzip zipPath url extractedDir fs).fs.files zipPath = none) ∧
    ((fs.files zipPath).isSome = true ∨ fs.dirs extractedDir = true →
      netReqs (download_and_extract net unzip zipPath url extractedDir fs).evs = []) ∧
    ((download_and_extract net unzip zipPath url extractedDir fs).outcome = DEOutcome.ok →
      ((fs.files zipPath).isSome = true ∨
        Ev.fileWrite zipPath ∈ (download_and_extract net unzip zipPath url extractedDir fs).evs) →
      Ev.extractEv zipPath extractedDir ∈
        (download_and_extract net unzip zipPath url extractedDir fs).evs ∧
      Ev.fileDelete zipPath ∈
        (download_and_extract net unzip zipPath url extractedDir fs).evs) := by
  refine ⟨?_, ?_, ?_⟩
  · -- no zip file remains on a normal return
    rcases dlPhase_cases net zipPath url extractedDir fs with ⟨evs0, hdl⟩ | ⟨body, hdl⟩ | hdl
    · simp [download_and_extract, hdl]
    · simp only [download_and_extract, hdl]
      simp only [show (writeFile fs zipPath body).files zipPath = some body from by
        simp [writeFile]]
      rcases hu : unzip body with _ | entries
      · simp
      · intro _
        simp [deleteFile]
    · simp only [download_and_extract, hdl]
      rcases hz : fs.files zipPath with _ | zbytes
      · exact fun _ => hz
      · rcases hu : unzip zbytes with _ | entries
        · simp [hu]
        · intro _
          simp [hu, deleteFile]
  · -- pre-existing zip or extraction directory: no network request
    intro hp
    have hc2 : ¬ ((fs.files zipPath).isNone ∧ fs.dirs extractedDir = false) := by
      rcases hp with hp | hp
      · intro hcc
        rw [Option.isSome_iff_ne_none] at hp
        exact hp (Option.isNone_iff_eq_none.mp hcc.1)
      · intro hcc
        rw [hcc.2] at hp
        cases hp
    have hdl := dlPhase_skip net zipPath url extractedDir fs hc2
    simp only [download_and_extract, hdl]
    rcases hz : fs.files zipPath with _ | zbytes
    · rfl
    · rcases hu : unzip zbytes with _ | entries
      · simp [hu, netReqs]
      · simp [hu, netReqs]
  · -- zip present after the download phase: it is extracted and deleted
    rcases dlPhase_cases net zipPath url extractedDir fs with ⟨evs0, hdl⟩ | ⟨body, hdl⟩ | hdl
    · simp [download_and_extract, hdl]
    · simp only [download_and_extract, hdl]
      simp only [show (writeFile fs zipPath body).files zipPath = some body from by
        simp [writeFile]]
      rcases hu : unzip body with _ | entries
      · simp
      · intro _ _
        constructor <;> simp
    · simp only [download_and_extract, hdl]
      rcases hz : fs.files zipPath with _ | zbytes
      · intro _ hp
        rcases hp with hp | hp
        · simp at hp
        · simp at hp
      · rcases hu : unzip zbytes with _ | entries
        · simp [hu]
        · intro _ _
          constructor <;> simp [hu]

/-- Witness for `c10_zip_removed`: with a pre-existing zip holding `[1, 2]`
and a one-entry archive oracle, the call extracts, deletes the zip, and
issues no request. -/
theorem c10_zip_removed_witness :
    (download_and_extract gNet (fun b => some [("e", b)]) ⟨"z", "a.zip"⟩ "u" "x"
      (writeFile emptyFS ⟨"z", "a.zip"⟩ [1, 2])).fs.files ⟨"z", "a.zip"⟩ = none ∧
    netReqs (download_and_extract gNet (fun b => some [("e", b)]) ⟨"z", "a.zip"⟩ "u" "x"
      (writeFile emptyFS ⟨"z", "a.zip"⟩ [1, 2])).evs = [] ∧
    Ev.extractEv ⟨"z", "a.zip"⟩ "x" ∈
      (download_and_extract gNet (fun b => some [("e", b)]) ⟨"z", "a.zip"⟩ "u" "x"
        (writeFile emptyFS ⟨"z", "a.zip"⟩ [1, 2])).evs :=
  ⟨(c10_zip_removed gNet (fun b => some [("e", b)]) ⟨"z", "a.zip"⟩ "u" "x"
      (writeFile emptyFS ⟨"z", "a.zip"⟩ [1, 2])).1 (by decide),
   (c10_zip_removed gNet (fun b => some [("e", b)]) ⟨"z", "a.zip"⟩ "u" "x"
      (writeFile emptyFS ⟨"z", "a.zip"⟩ [1, 2])).2.1 (Or.inl (by decide)),
   ((c10_zip_removed gNet (fun b => some [("e", b)]) ⟨"z", "a.zip"⟩ "u" "x"
      (writeFile emptyFS ⟨"z", "a.zip"⟩ [1, 2])).2.2 (by decide) (Or.inl (by decide))).1⟩
